import Mathlib

set_option maxRecDepth 100000

/-!
Shallow embedding of the chess rules engine in `src/chess_lib/src/lib.rs`
(crate `chess_lib` of the repository).  Rust `usize` indices are modelled as
`Nat`, `i32` values as `Int`.  Board reads and writes are modelled by the
total functions `getSq` / `setSq`: an out-of-bounds read yields `none` and an
out-of-bounds write is a no-op (the Rust code would panic there; no theorem
below depends on such a state except where a panic is modelled explicitly,
see `FenResult.panic` / `AlgRes.panic`).

The fields of the Rust `Game` struct are split into `GameCore` (board, turn,
castling rights, en-passant square, clocks, capture log, promotion square)
and the two derived attacked-square caches, which together form `Game`.
Each method is modelled as a function of the parts it actually reads and
writes: move application (`make_move_with_index` below the legality check)
never reads the caches and is a `GameCore → GameCore` function, while attack
computation, check detection and castling generation read the caches and
take the whole `Game`.

The `previous_state` undo chain is not stored as a field; instead
`undoRestore` applies exactly the field restoration that `undo_last_move`
(lib.rs:651-666) performs on the snapshot taken by `make_move_with_index`
(lib.rs:883): every `GameCore` field except the promotion square is
restored, while the caches and the promotion square keep their post-move
values.  The constant fields `rook_move_directions`, …,
`insufficient_material` of the Rust struct are never mutated and are
modelled as global constants.
-/

/-- Piece colors (lib.rs:1374). -/
inductive Color where
  | White
  | Black
deriving DecidableEq, Repr

/-- `Color::opposite` (lib.rs:1381). -/
def Color.opposite : Color → Color
  | .White => .Black
  | .Black => .White

/-- Piece kinds (lib.rs:1362). -/
inductive PieceType where
  | Pawn
  | Knight
  | Bishop
  | Rook
  | Queen
  | King
deriving DecidableEq, Repr

/-- A chess piece (lib.rs:1346). -/
structure Piece where
  pieceType : PieceType
  color : Color
deriving DecidableEq, Repr

/-- `Piece::new` (lib.rs:1352). -/
def Piece.new (pieceType : PieceType) (color : Color) : Piece := ⟨pieceType, color⟩

/-- The two `HashMap<Color, bool>` castling maps of the Rust struct always
hold both keys; they are modelled as a pair of `Bool`s. -/
structure CastlingRights where
  white : Bool
  black : Bool
deriving DecidableEq, Repr

/-- `HashMap::get(&color).unwrap()` on a castling map. -/
def CastlingRights.get (r : CastlingRights) : Color → Bool
  | .White => r.white
  | .Black => r.black

/-- `HashMap::insert(color, b)` on a castling map. -/
def CastlingRights.insert (r : CastlingRights) : Color → Bool → CastlingRights
  | .White, b => { r with white := b }
  | .Black, b => { r with black := b }

/-- The 8×8 grid of `Option<Piece>` (lib.rs:48). -/
abbrev Board := List (List (Option Piece))

/-- Read `board[i][j]`; `none` when the index is outside the grid. -/
def getSq (b : Board) (i j : Nat) : Option Piece :=
  match b.get? i with
  | none => none
  | some row => (row.get? j).join

/-- Write `board[i][j] = v`; a no-op when the index is outside the grid
(the Rust indexing would panic there). -/
def setSq (b : Board) (i j : Nat) (v : Option Piece) : Board :=
  match b.get? i with
  | none => b
  | some row => b.set i (row.set j v)

/-- Game states (lib.rs:1317). -/
inductive WinState where
  | Checkmate (c : Color)
deriving DecidableEq, Repr

inductive DrawState where
  | Stalemate
  | InsufficientMaterial
  | FiftyMoveRule
deriving DecidableEq, Repr

inductive GameState where
  | InProgress
  | AwaitPromotion
  | Win (w : WinState)
  | Draw (d : DrawState)
deriving DecidableEq, Repr

/-- The non-derived fields of the `Game` struct (lib.rs:45-78): everything
except the two attacked-square caches, the constant tables and the
`previous_state` link. -/
structure GameCore where
  board : Board
  turn : Color
  kingsideCastle : CastlingRights
  queensideCastle : CastlingRights
  enPassantSquare : Option (Nat × Nat)
  halfMoves : Nat
  fullMoves : Nat
  captures : List Piece
  promotionSquare : Option (Nat × Nat)
deriving DecidableEq, Repr

/-- The full mutable state of the Rust `Game` struct: the core fields plus
the cached attacked-square vectors (lib.rs:70-71). -/
structure Game where
  core : GameCore
  whiteAttackedSquares : List (Nat × Nat)
  blackAttackedSquares : List (Nat × Nat)
deriving DecidableEq, Repr

/-- `rook_move_directions` (lib.rs:105). -/
def rookMoveDirections : List (Int × Int) := [(1, 0), (-1, 0), (0, 1), (0, -1)]

/-- `bishop_move_directions` (lib.rs:109). -/
def bishopMoveDirections : List (Int × Int) := [(1, 1), (1, -1), (-1, 1), (-1, -1)]

/-- `queen_move_directions` (lib.rs:113). -/
def queenMoveDirections : List (Int × Int) :=
  [(1, 0), (-1, 0), (0, 1), (0, -1), (1, 1), (1, -1), (-1, 1), (-1, -1)]

/-- `knight_move_directions` (lib.rs:117). -/
def knightMoveDirections : List (Int × Int) :=
  [(2, 1), (2, -1), (-2, 1), (-2, -1), (1, 2), (-1, 2), (1, -2), (-1, -2)]

/-- `unwinnable_states` / `insufficient_material` (lib.rs:121-130). -/
def insufficientMaterial : List (List PieceType) :=
  [[.King],
   [.King, .Knight],
   [.Knight, .King],
   [.King, .Bishop],
   [.Bishop, .King],
   [.King, .Knight, .Knight],
   [.Knight, .King, .Knight],
   [.Knight, .Knight, .King]]

/-- `is_valid_pos` (lib.rs:1389). -/
def isValidPos (i j : Int) : Bool :=
  0 ≤ i && i ≤ 7 && 0 ≤ j && j ≤ 7

/-- `is_valid_move` (lib.rs:1393). -/
def isValidMove (f t : Nat × Nat) : Bool :=
  isValidPos (f.1 : Int) (f.2 : Int) && isValidPos (t.1 : Int) (t.2 : Int)

/-- `Vec::contains` on a list of board indices (`PartialEq` on tuples is
structural equality). -/
def listContains (l : List (Nat × Nat)) (x : Nat × Nat) : Bool :=
  l.any (fun y => decide (y = x))

/-- The 64 board squares in the scan order `for i in 0..8 { for j in 0..8 }`
used throughout the Rust code. -/
def squaresIdx : List (Nat × Nat) :=
  (List.range 8).flatMap (fun i => (List.range 8).map (fun j => (i, j)))

/-- `can_en_passant` (lib.rs:1536). -/
def canEnPassant (i : Nat) : Option Color :=
  match i with
  | 2 => some Color.White
  | 5 => some Color.Black
  | _ => none

/-- `Game::get_attacked_squares` (lib.rs:1246). -/
def getAttackedSquares (g : Game) : Color → List (Nat × Nat)
  | .White => g.whiteAttackedSquares
  | .Black => g.blackAttackedSquares

/-- One ray of `directional_pseudo_legal_moves` (lib.rs:1064-1095): the
`while moves_made < max_moves` loop for a single direction, with the current
(`i32`) cursor as explicit state.  Stepping outside the board does not stop
the loop in the source; it merely adds nothing. -/
def walkRay (b : Board) (pieceColor : Color) (dI dJ : Int) (includeAllAttacked : Bool) :
    Nat → Int → Int → List (Nat × Nat)
  | 0, _, _ => []
  | movesLeft + 1, iM, jM =>
    let iM' := iM + dI
    let jM' := jM + dJ
    if isValidPos iM' jM' then
      match getSq b iM'.toNat jM'.toNat with
      | none => (iM'.toNat, jM'.toNat) :: walkRay b pieceColor dI dJ includeAllAttacked movesLeft iM' jM'
      | some piece =>
        if piece.color = pieceColor then
          if includeAllAttacked then [(iM'.toNat, jM'.toNat)] else []
        else
          [(iM'.toNat, jM'.toNat)]
    else
      walkRay b pieceColor dI dJ includeAllAttacked movesLeft iM' jM'

/-- `Game::directional_pseudo_legal_moves` (lib.rs:1049), a function of the
board only.  The moving piece's color is read from the board; the source
`unwrap`s and is only called on occupied squares, an empty square yields
`[]` here. -/
def directionalPseudoLegalMoves (b : Board) (i j : Nat) (directions : List (Int × Int))
    (maxMoves : Nat) (includeAllAttacked : Bool) : List (Nat × Nat) :=
  match getSq b i j with
  | none => []
  | some piece =>
    directions.flatMap (fun d => walkRay b piece.color d.1 d.2 includeAllAttacked maxMoves (i : Int) (j : Int))

/-- `Game::pawn_can_capture` (lib.rs:1174), reading the board and the
en-passant square.  Note the source's `else`: when an en-passant square
exists but is not `(i, j)`, the ordinary-capture check is skipped and the
function returns `false`. -/
def pawnCanCapture (c : GameCore) (i j : Nat) (pawnColor : Color) : Bool :=
  match c.enPassantSquare with
  | some epSquare =>
    if epSquare = (i, j) then
      match canEnPassant i with
      | some color => color = pawnColor
      | none => false
    else false
  | none =>
    match getSq c.board i j with
    | none => false
    | some piece => piece.color ≠ pawnColor

/-- `Game::pawn_pseudo_legal_moves` (lib.rs:1107).  Push order: forward one,
forward two, capture right (`j+1`), capture left (`j-1`).  The `j - 1` in
the capture-left branch is guarded by `is_valid_pos(i_indx, j as i32 - 1)`,
so the `Nat` subtraction is exact. -/
def pawnPseudoLegalMoves (c : GameCore) (i j : Nat) (onlyAttacked : Bool) : List (Nat × Nat) :=
  match getSq c.board i j with
  | none => []
  | some pawn =>
    let d : Int := match pawn.color with | .White => -1 | .Black => 1
    let iIndx : Int := (i : Int) + d
    if !onlyAttacked then
      let forward :=
        if isValidPos iIndx (j : Int) then
          if (getSq c.board iIndx.toNat j).isNone then
            (iIndx.toNat, j) ::
              (match pawn.color with
               | .White => if i = 6 && (getSq c.board 4 j).isNone then [(4, j)] else []
               | .Black => if i = 1 && (getSq c.board 3 j).isNone then [(3, j)] else [])
          else []
        else []
      let capRight :=
        if isValidPos iIndx ((j : Int) + 1) then
          if pawnCanCapture c iIndx.toNat (j + 1) pawn.color then [(iIndx.toNat, j + 1)] else []
        else []
      let capLeft :=
        if isValidPos iIndx ((j : Int) - 1) then
          if pawnCanCapture c iIndx.toNat (j - 1) pawn.color then [(iIndx.toNat, j - 1)] else []
        else []
      forward ++ capRight ++ capLeft
    else
      (if isValidPos iIndx ((j : Int) + 1) then [(iIndx.toNat, j + 1)] else []) ++
      (if isValidPos iIndx ((j : Int) - 1) then [(iIndx.toNat, j - 1)] else [])

/-- The kingside-castling block of `king_pseudo_legal_moves`
(lib.rs:1218-1228); it reads the castling rights, the board and the cached
attacked squares of the opponent.  The source indexes `board[i][j+1]`,
`board[i][j+2]` without a bounds check (panicking for `j ≥ 6`); the total
`getSq` yields `none` there. -/
def kingsideCastleMoves (g : Game) (i j : Nat) (kingColor : Color) : List (Nat × Nat) :=
  if g.core.kingsideCastle.get kingColor then
    if (getSq g.core.board i (j + 1)).isNone && (getSq g.core.board i (j + 2)).isNone then
      let attacked := getAttackedSquares g kingColor.opposite
      if !(listContains attacked (i, j)) && !(listContains attacked (i, j + 1)) &&
         !(listContains attacked (i, j + 2)) then
        [(i, j + 2)]
      else []
    else []
  else []

/-- The queenside-castling block of `king_pseudo_legal_moves`
(lib.rs:1230-1240).  The source's `j - 1`, `j - 2` are `usize`
subtractions that panic for `j ≤ 1`; the `Nat` subtraction truncates
instead (no theorem below touches a king with queenside rights at
`j ≤ 1`). -/
def queensideCastleMoves (g : Game) (i j : Nat) (kingColor : Color) : List (Nat × Nat) :=
  if g.core.queensideCastle.get kingColor then
    if (getSq g.core.board i (j - 1)).isNone && (getSq g.core.board i (j - 2)).isNone then
      let attacked := getAttackedSquares g kingColor.opposite
      if !(listContains attacked (i, j)) && !(listContains attacked (i, j - 1)) &&
         !(listContains attacked (i, j - 2)) then
        [(i, j - 2)]
      else []
    else []
  else []

/-- `Game::king_pseudo_legal_moves` (lib.rs:1207).  The castling blocks run
in both modes (they are not gated on `include_all_attacked`). -/
def kingPseudoLegalMoves (g : Game) (i j : Nat) (includeAllAttacked : Bool) : List (Nat × Nat) :=
  match getSq g.core.board i j with
  | none => []
  | some king =>
    directionalPseudoLegalMoves g.core.board i j queenMoveDirections 1 includeAllAttacked ++
    kingsideCastleMoves g i j king.color ++ queensideCastleMoves g i j king.color

/-- The piece dispatch of `get_pseudo_legal_moves_for_square`
(lib.rs:1026-1036), total: empty square ↦ `[]`. -/
def pseudoMovesForSquare (g : Game) (i j : Nat) (onlyAttacked : Bool) : List (Nat × Nat) :=
  match getSq g.core.board i j with
  | none => []
  | some piece =>
    match piece.pieceType with
    | .Pawn => pawnPseudoLegalMoves g.core i j onlyAttacked
    | .Rook => directionalPseudoLegalMoves g.core.board i j rookMoveDirections 8 onlyAttacked
    | .Bishop => directionalPseudoLegalMoves g.core.board i j bishopMoveDirections 8 onlyAttacked
    | .Knight => directionalPseudoLegalMoves g.core.board i j knightMoveDirections 1 onlyAttacked
    | .Queen => directionalPseudoLegalMoves g.core.board i j queenMoveDirections 8 onlyAttacked
    | .King => kingPseudoLegalMoves g i j onlyAttacked

/-- `Game::get_pseudo_legal_moves_for_square` (lib.rs:1019). -/
def getPseudoLegalMovesForSquare (g : Game) (i j : Nat) (onlyAttacked : Bool) :
    Except String (List (Nat × Nat)) :=
  if !(isValidPos (i : Int) (j : Int)) then
    .error "Invalid index : Cannot compute pseudo-legal moves"
  else
    .ok (pseudoMovesForSquare g i j onlyAttacked)

/-- The squares attacked by `color`, exactly the per-color vector built by
`update_attacked_squares` (lib.rs:1255-1275): concatenation over the board
scan of attack-mode pseudo-legal moves of that color's pieces (computed on
the incoming state, whose old caches feed the castling blocks of the king's
attack moves). -/
def attackedFor (g : Game) (color : Color) : List (Nat × Nat) :=
  squaresIdx.flatMap (fun ij =>
    match getSq g.core.board ij.1 ij.2 with
    | some piece => if piece.color = color then pseudoMovesForSquare g ij.1 ij.2 true else []
    | none => [])

/-- `Game::update_attacked_squares` (lib.rs:1255).  Both vectors are
computed from the incoming state and only then stored. -/
def updateAttackedSquares (g : Game) : Game :=
  { g with whiteAttackedSquares := attackedFor g .White,
           blackAttackedSquares := attackedFor g .Black }

/-- The king scan of `in_check` (lib.rs:792-802): the first square in scan
order holding a king of `color`, if any. -/
def findKing (b : Board) (color : Color) : Option (Nat × Nat) :=
  squaresIdx.find? (fun ij =>
    match getSq b ij.1 ij.2 with
    | some piece => piece.pieceType = PieceType.King && piece.color = color
    | none => false)

/-- `Game::in_check` (lib.rs:788).  Membership is tested against the cached
attacked-square vector; with no king on the board the function returns
`false`. -/
def inCheck (g : Game) (color : Color) : Bool :=
  match findKing g.core.board color with
  | some ij => listContains (getAttackedSquares g color.opposite) ij
  | none => false

/-- The pieces of `color` in scan order, as collected by `can_win`
(lib.rs:1291-1301). -/
def piecesOf (b : Board) (color : Color) : List PieceType :=
  squaresIdx.filterMap (fun ij =>
    match getSq b ij.1 ij.2 with
    | some piece => if piece.color = color then some piece.pieceType else none
    | none => none)

/-- `Game::can_win` (lib.rs:1289). -/
def canWin (b : Board) (color : Color) : Bool :=
  !(insufficientMaterial.any (fun l => decide (l = piecesOf b color)))

/-- `Game::promote` (lib.rs:622): replace the piece at `indx` by the chosen
kind with the *occupant's* color.  The source `unwrap`s the occupant; an
empty square is left unchanged here (the source would panic). -/
def promote (c : GameCore) (indx : Nat × Nat) (pieceType : PieceType) : GameCore :=
  match getSq c.board indx.1 indx.2 with
  | some piece => { c with board := setSq c.board indx.1 indx.2 (some (Piece.new pieceType piece.color)) }
  | none => c

/-- `Game::promote_to_piece` (lib.rs:609): promote at the pending square if
any; the pending square is cleared unconditionally. -/
def promoteToPiece (c : GameCore) (pieceType : PieceType) : Bool × GameCore :=
  match c.promotionSquare with
  | some indx => (true, { promote c indx pieceType with promotionSquare := none })
  | none => (false, { c with promotionSquare := none })

/-- `Game::is_promotion_move` (lib.rs:1001), a function of the board.  The
source `unwrap`s the moving piece; an empty `from` yields `false` here. -/
def isPromotionMove (b : Board) (f t : Nat × Nat) : Bool :=
  if isValidMove f t then
    match getSq b f.1 f.2 with
    | some pawn => t.1 = (match pawn.color with | .White => 0 | .Black => 7)
    | none => false
  else false

/-- The capture block of `make_move_with_index` (lib.rs:889-892): log the
destination occupant and reset the half-move clock. -/
def captureStep (c : GameCore) (t : Nat × Nat) : GameCore :=
  match getSq c.board t.1 t.2 with
  | some piece => { c with captures := c.captures ++ [piece], halfMoves := 0 }
  | none => c

/-- The king block of `make_move_with_index` (lib.rs:897-915): a two-file
king move clears both castling rights of the king's color and relocates the
corresponding rook. -/
def kingCastleEffect (c : GameCore) (f t : Nat × Nat) (kingColor : Color) : GameCore :=
  let d : Int := (f.2 : Int) - (t.2 : Int)
  if d.natAbs = 2 then
    let c := { c with kingsideCastle := c.kingsideCastle.insert kingColor false,
                      queensideCastle := c.queensideCastle.insert kingColor false }
    if d < 0 then
      { c with board := setSq (setSq c.board f.1 5 (getSq c.board f.1 7)) f.1 7 none }
    else
      { c with board := setSq (setSq c.board f.1 3 (getSq c.board f.1 0)) f.1 0 none }
  else c

/-- The rook block of `make_move_with_index` (lib.rs:916-932): moving a rook
off its original corner clears that wing's castling right. -/
def rookMoveRightsEffect (c : GameCore) (f : Nat × Nat) (rookColor : Color) : GameCore :=
  let startingRank : Nat := match rookColor with | .White => 7 | .Black => 0
  if f.1 = startingRank then
    match f.2 with
    | 0 => { c with queensideCastle := c.queensideCastle.insert rookColor false }
    | 7 => { c with kingsideCastle := c.kingsideCastle.insert rookColor false }
    | _ => c
  else c

/-- The pawn block of `make_move_with_index` (lib.rs:933-957): reset the
half-move clock, set the en-passant target on a double push, mark a pending
promotion, and remove the pawn behind the en-passant target when capturing
onto it.  The en-passant test reads the possibly just-updated field, as in
the source.  The `i2 - 1` of the black branch is an unguarded `usize`
subtraction in the source (panicking at `i2 = 0`); `Nat` truncation applies
here, unreachable for generated moves. -/
def pawnEffects (c : GameCore) (f t : Nat × Nat) (pawnColor : Color) : GameCore :=
  let c := { c with halfMoves := 0 }
  let d : Int := (f.1 : Int) - (t.1 : Int)
  let c := if d.natAbs = 2 then { c with enPassantSquare := some ((f.1 + t.1) / 2, f.2) } else c
  let c := if isPromotionMove c.board f t then { c with promotionSquare := some t } else c
  match c.enPassantSquare with
  | some epSquare =>
    if (t.1, t.2) = epSquare then
      match pawnColor with
      | .White => { c with board := setSq c.board (t.1 + 1) t.2 none }
      | .Black => { c with board := setSq c.board (t.1 - 1) t.2 none }
    else c
  | none => c

/-- The piece-specific dispatch of `make_move_with_index` (lib.rs:897-957).
The source `unwrap`s the moving piece (panicking when `from` is empty); an
empty `from` has no piece-specific effect here. -/
def pieceSpecificEffects (c : GameCore) (f t : Nat × Nat) : GameCore :=
  match getSq c.board f.1 f.2 with
  | some movingPiece =>
    if movingPiece.pieceType = PieceType.King then kingCastleEffect c f t movingPiece.color
    else if movingPiece.pieceType = PieceType.Rook then rookMoveRightsEffect c f movingPiece.color
    else if movingPiece.pieceType = PieceType.Pawn then pawnEffects c f t movingPiece.color
    else c
  | none => c

/-- The captured-rook block of `make_move_with_index` (lib.rs:959-978): a
rook captured on its original corner clears that wing's castling right. -/
def capturedRookRightsEffect (c : GameCore) (t : Nat × Nat) : GameCore :=
  match getSq c.board t.1 t.2 with
  | some piece =>
    if piece.pieceType = PieceType.Rook then
      let startingRank : Nat := match piece.color with | .White => 7 | .Black => 0
      if t.1 = startingRank then
        match t.2 with
        | 0 => { c with queensideCastle := c.queensideCastle.insert piece.color false }
        | 7 => { c with kingsideCastle := c.kingsideCastle.insert piece.color false }
        | _ => c
      else c
    else c
  | none => c

/-- The board relocation of `make_move_with_index` (lib.rs:981-982):
`board[i2][j2] = board[i1][j1]; board[i1][j1] = None`. -/
def relocateStep (c : GameCore) (f t : Nat × Nat) : GameCore :=
  { c with board := setSq (setSq c.board t.1 t.2 (getSq c.board f.1 f.2)) f.1 f.2 none }

/-- Steps 3-8 of `make_move_with_index` (lib.rs:886-986): everything between
the snapshot and `update_attacked_squares`, in source order.  None of these
steps reads the attacked-square caches, which is why this is a function on
`GameCore`. -/
def moveCore (c : GameCore) (f t : Nat × Nat) (autoPromote : Bool) : GameCore :=
  let c := { c with halfMoves := c.halfMoves + 1 }
  let c := captureStep c t
  let c := pieceSpecificEffects c f t
  let c := capturedRookRightsEffect c t
  let c := relocateStep c f t
  if autoPromote then (promoteToPiece c PieceType.Queen).2 else c

/-- The tail of `make_move_with_index` after `update_attacked_squares`
(lib.rs:990-995): advance the full-move counter when Black (the mover) is
to move, clear the en-passant square *unconditionally* (the source clears
it even when the move just set it), flip the turn. -/
def finishCore (c : GameCore) : GameCore :=
  { c with fullMoves := if c.turn = Color.Black then c.fullMoves + 1 else c.fullMoves,
           enPassantSquare := none,
           turn := c.turn.opposite }

/-- The whole mutation performed by `make_move_with_index` once the
legality precheck has passed or been bypassed (lib.rs:882-997): core steps,
`update_attacked_squares` (computed with the incoming caches), then the
finishing steps.  The function always returns `Ok(true)` in the source;
only the resulting state is kept here. -/
def makeMoveUnchecked (g : Game) (f t : Nat × Nat) (autoPromote : Bool) : Game :=
  let g1 := updateAttackedSquares
    { core := moveCore g.core f t autoPromote,
      whiteAttackedSquares := g.whiteAttackedSquares,
      blackAttackedSquares := g.blackAttackedSquares }
  { g1 with core := finishCore g1.core }

/-- `undo_last_move` (lib.rs:651-666) applied to the snapshot `pre` that
`make_move_with_index` stored before mutating: board, castling rights,
en-passant square, clocks, turn and capture log are restored from `pre`;
the attacked-square caches and the promotion square are *not* restored and
keep their post-move values. -/
def undoRestore (pre post : Game) : Game :=
  { core := { pre.core with promotionSquare := post.core.promotionSquare },
    whiteAttackedSquares := post.whiteAttackedSquares,
    blackAttackedSquares := post.blackAttackedSquares }

/-- The simulate-and-restore loop of `get_legal_moves_array_index`
(lib.rs:742-751): each pseudo-legal move is applied with
`check_legal = false, auto_promote = true`, kept iff the mover is not in
check afterwards, and undone. -/
def legalLoop (color : Color) (pos : Nat × Nat) :
    List (Nat × Nat) → Game → List (Nat × Nat) × Game
  | [], g => ([], g)
  | mve :: rest, g =>
    let sim := makeMoveUnchecked g pos mve true
    let keep := !(inCheck sim color)
    let next := undoRestore g sim
    let res := legalLoop color pos rest next
    (if keep then mve :: res.1 else res.1, res.2)

/-- `Game::get_legal_moves_array_index` (lib.rs:724).  The Rust method
mutates `self` through the simulations; the resulting state is returned
alongside the move list. -/
def getLegalMovesArrayIndex (g : Game) (index : Nat × Nat) :
    Except String (List (Nat × Nat) × Game) :=
  if !(isValidPos (index.1 : Int) (index.2 : Int)) then
    .error "Invalid index"
  else
    match getSq g.core.board index.1 index.2 with
    | none => .ok ([], g)
    | some piece =>
      .ok (legalLoop piece.color index (pseudoMovesForSquare g index.1 index.2 false) g)

/-- The move list computed by `get_legal_moves_array_index` (empty on the
error branch, where the source returns `Err`). -/
def legalMovesOf (g : Game) (index : Nat × Nat) : List (Nat × Nat) :=
  match getLegalMovesArrayIndex g index with
  | .ok r => r.1
  | .error _ => []

/-- The state of the `Game` after a `get_legal_moves_array_index` call
(unchanged on the error branch, where the source mutates nothing). -/
def legalStateOf (g : Game) (index : Nat × Nat) : Game :=
  match getLegalMovesArrayIndex g index with
  | .ok r => r.2
  | .error _ => g

/-- The scan of `get_all_legal_moves` (lib.rs:769-785) threading the
mutations of the per-square queries; the `HashMap` is modelled as an
association list in scan order (only its value multiset is ever consumed). -/
def allLegalLoop (color : Color) :
    List (Nat × Nat) → Game → List ((Nat × Nat) × List (Nat × Nat)) × Game
  | [], g => ([], g)
  | ij :: rest, g =>
    match getSq g.core.board ij.1 ij.2 with
    | some piece =>
      if piece.color = color then
        match getLegalMovesArrayIndex g ij with
        | .ok r =>
          let res := allLegalLoop color rest r.2
          ((ij, r.1) :: res.1, res.2)
        | .error _ => allLegalLoop color rest g
      else allLegalLoop color rest g
    | none => allLegalLoop color rest g

/-- `Game::get_all_legal_moves` (lib.rs:769). -/
def getAllLegalMoves (g : Game) (color : Color) :
    List ((Nat × Nat) × List (Nat × Nat)) × Game :=
  allLegalLoop color squaresIdx g

/-- `Game::num_of_legal_moves` (lib.rs:1278): sum of the lengths of all
per-square legal-move lists. -/
def numOfLegalMoves (g : Game) (color : Color) : Nat × Game :=
  let res := getAllLegalMoves g color
  (res.1.foldl (fun a e => a + e.2.length) 0, res.2)

/-- The legal-move count alone. -/
def allLegalCount (g : Game) (color : Color) : Nat :=
  (numOfLegalMoves g color).1

/-- `Game::get_state` (lib.rs:809).  `num_of_legal_moves` mutates `self`
(attacked-square caches are left at the values of the last simulation); the
subsequent `in_check`, half-move and material tests read that mutated
state, exactly as the `&mut self` method does. -/
def getState (g : Game) : GameState :=
  if g.core.promotionSquare.isSome then .AwaitPromotion
  else
    let res := numOfLegalMoves g g.core.turn
    let g1 := res.2
    if res.1 = 0 then
      if inCheck g1 g1.core.turn then .Win (.Checkmate g1.core.turn.opposite)
      else .Draw .Stalemate
    else if 100 ≤ g1.core.halfMoves then .Draw .FiftyMoveRule
    else if !(canWin g1.core.board .White) && !(canWin g1.core.board .Black) then
      .Draw .InsufficientMaterial
    else .InProgress

/-- `Game::piece_at_array_index` (lib.rs:446). -/
def pieceAtArrayIndex (g : Game) (indx : Nat × Nat) : Except String (Option Piece) :=
  if !(isValidPos (indx.1 : Int) (indx.2 : Int)) then .error "Invalid index"
  else .ok (getSq g.core.board indx.1 indx.2)

/-- `Game::make_move_with_index` (lib.rs:863): the color precheck, the
legality precheck through `get_legal_moves_array_index` (whose mutations
persist even when the move is rejected), then the mutation.  The
`.unwrap()` on the legal-move query is modelled by propagating the error
(the source would panic; reachable only for an invalid `from`). -/
def makeMoveWithIndex (g : Game) (f t : Nat × Nat) (checkLegal autoPromote : Bool) :
    Except String (Bool × Game) :=
  if checkLegal then
    let colorReject : Bool :=
      match pieceAtArrayIndex g f with
      | .ok (some piece) => piece.color != g.core.turn
      | _ => false
    if colorReject then .ok (false, g)
    else
      match getLegalMovesArrayIndex g f with
      | .ok r =>
        if !(listContains r.1 t) then .ok (false, r.2)
        else .ok (true, makeMoveUnchecked r.2 f t autoPromote)
      | .error e => .error e
  else .ok (true, makeMoveUnchecked g f t autoPromote)

/-- The `Game` resulting from a `make_move_with_index` call (unchanged on
the error branch). -/
def mmGame (g : Game) (f t : Nat × Nat) (checkLegal autoPromote : Bool) : Game :=
  match makeMoveWithIndex g f t checkLegal autoPromote with
  | .ok r => r.2
  | .error _ => g

/-- The acceptance flag returned by `make_move_with_index` (`false` on the
error branch). -/
def mmAccepted (g : Game) (f t : Nat × Nat) (checkLegal autoPromote : Bool) : Bool :=
  match makeMoveWithIndex g f t checkLegal autoPromote with
  | .ok r => r.1
  | .error _ => false

/-- `get_piece` (lib.rs:1401). -/
def getPiece (chr : Char) : Except String Piece :=
  match chr with
  | 'P' => .ok (Piece.new .Pawn .White)
  | 'N' => .ok (Piece.new .Knight .White)
  | 'B' => .ok (Piece.new .Bishop .White)
  | 'R' => .ok (Piece.new .Rook .White)
  | 'Q' => .ok (Piece.new .Queen .White)
  | 'K' => .ok (Piece.new .King .White)
  | 'p' => .ok (Piece.new .Pawn .Black)
  | 'n' => .ok (Piece.new .Knight .Black)
  | 'b' => .ok (Piece.new .Bishop .Black)
  | 'r' => .ok (Piece.new .Rook .Black)
  | 'q' => .ok (Piece.new .Queen .Black)
  | 'k' => .ok (Piece.new .King .Black)
  | e => .error (String.mk [e])

/-- `get_piece_notation` (lib.rs:1419). -/
def getPieceLetter (piece : Piece) : Char :=
  let letter : Char := match piece.pieceType with
    | .Pawn => 'P'
    | .Knight => 'N'
    | .Bishop => 'B'
    | .Rook => 'R'
    | .Queen => 'Q'
    | .King => 'K'
  if piece.color = Color.Black then letter.toLower else letter

/-- `char::to_digit(10)`. -/
def charToDigit10 (c : Char) : Option Nat :=
  if c.isDigit then some (c.toNat - 48) else none

/-- `char::from_digit(n, 10)` for `n ≤ 9` (all uses below are in range). -/
def digitChar (n : Nat) : Char := Char.ofNat (48 + n)

/-- The file letter of `alg_notation_to_indx` (lib.rs:1478-1488). -/
def fileIndex (c : Char) : Option Nat :=
  match c with
  | 'a' => some 0
  | 'b' => some 1
  | 'c' => some 2
  | 'd' => some 3
  | 'e' => some 4
  | 'f' => some 5
  | 'g' => some 6
  | 'h' => some 7
  | _ => none

/-- Result of `alg_notation_to_indx`: a returned index, a returned error,
or a Rust panic (the `usize` underflow of `8 - digit` for digits > 8,
lib.rs:1492). -/
inductive AlgRes where
  | panic
  | err (msg : String)
  | ok (indx : Nat × Nat)
deriving DecidableEq, Repr

/-- Whether `alg_notation_to_indx` returned `Err`. -/
def AlgRes.isErr : AlgRes → Bool
  | .err _ => true
  | _ => false

/-- `alg_notation_to_indx` (lib.rs:1469).  Note that the source does not
reject rank digits outside 1-8: digit 0 yields the off-board row 8 and
digit 9 hits the `usize` underflow. -/
def algNotationToIndx (s : String) : AlgRes :=
  match s.toList with
  | [c0, c1] =>
    match fileIndex c0 with
    | none => .err ("Invalid file " ++ String.mk [c0])
    | some col =>
      match charToDigit10 c1 with
      | some digit => if 8 < digit then .panic else .ok (8 - digit, col)
      | none => .err ("Invalid row " ++ String.mk [c1])
  | _ => .err ("Invalid " ++ s)

/-- Result of `indx_to_alg_notation` (lib.rs:1507): a string, an error, or
the `u32` underflow panic of `8 - indx.0` for rows > 8 (lib.rs:1521). -/
inductive NotaRes where
  | panic
  | err (msg : String)
  | ok (s : String)
deriving DecidableEq, Repr

/-- `indx_to_alg_notation` (lib.rs:1507).  For a row index of exactly 8 the
source produces the digit '0' (`from_digit(0, 10)`), not an error. -/
def indxToAlgNota (indx : Nat × Nat) : NotaRes :=
  match (match indx.2 with
         | 0 => some 'a' | 1 => some 'b' | 2 => some 'c' | 3 => some 'd'
         | 4 => some 'e' | 5 => some 'f' | 6 => some 'g' | 7 => some 'h'
         | _ => none) with
  | none => .err "Invalid column"
  | some fileChr =>
    if 8 < indx.1 then .panic
    else .ok (String.mk [fileChr, digitChar (8 - indx.1)])

/-- Result of `from_fen`: a parsed game, a returned `Err`, or a Rust panic
(missing field, board index out of bounds, or the `u32` underflow on a '0'
digit in the placement field). -/
inductive FenResult where
  | panic
  | err (msg : String)
  | ok (g : Game)
deriving DecidableEq, Repr

/-- Whether `from_fen` returned `Err`. -/
def FenResult.isErr : FenResult → Bool
  | .err _ => true
  | _ => false

/-- Whether `from_fen` returned `Ok`. -/
def FenResult.isOk : FenResult → Bool
  | .ok _ => true
  | _ => false

/-- Intermediate result while building the board from the placement field. -/
inductive BoardRes where
  | panic
  | err (msg : String)
  | ok (b : Board)
deriving DecidableEq, Repr

/-- One row of the placement loop of `from_fen` (lib.rs:233-246).  A digit
`n` advances `j` by `n - 1` and the shared `j += 1` makes it `j + n`; the
digit 0 underflows the `u32` subtraction (panic).  A piece character is
written at `board[i][j]`, panicking (out-of-bounds indexing) when `i` or
`j` exceeds 7. -/
def placeRow (b : Board) (i : Nat) (j : Nat) : List Char → BoardRes
  | [] => .ok b
  | chr :: rest =>
    match charToDigit10 chr with
    | some number =>
      if number = 0 then .panic
      else placeRow b i (j + number) rest
    | none =>
      match getPiece chr with
      | .error e => .err e
      | .ok piece =>
        if i ≤ 7 && j ≤ 7 then placeRow (setSq b i j (some piece)) i (j + 1) rest
        else .panic

/-- The `enumerate` over '/'-separated rows of `from_fen` (lib.rs:233),
resetting `j` to 0 per row. -/
def placeRows (b : Board) (i : Nat) : List String → BoardRes
  | [] => .ok b
  | row :: rest =>
    match placeRow b i 0 row.toList with
    | .ok b1 => placeRows b1 (i + 1) rest
    | .err e => .err e
    | .panic => .panic

/-- The castling-field loop of `from_fen` (lib.rs:256-270): each letter
*inserts `true`* for its side/wing (absent letters are left at the
incoming value); '-' sets all four rights to `false`; anything else is an
error. -/
def castleFold (ks qs : CastlingRights) : List Char → Except String (CastlingRights × CastlingRights)
  | [] => .ok (ks, qs)
  | c :: rest =>
    match c with
    | 'K' => castleFold (ks.insert .White true) qs rest
    | 'Q' => castleFold ks (qs.insert .White true) rest
    | 'k' => castleFold (ks.insert .Black true) qs rest
    | 'q' => castleFold ks (qs.insert .Black true) rest
    | '-' => castleFold ((ks.insert .White false).insert .Black false)
                        ((qs.insert .White false).insert .Black false) rest
    | _ => .error "Invalid castling field"

/-- `str::parse::<u32>` on the clock fields, for the plain-digit strings in
scope (the '+'-sign form accepted by Rust does not occur in any input
considered below). -/
def parseU32 (s : String) : Option Nat :=
  if s.toList ≠ [] && s.toList.all Char.isDigit then
    let v := s.toList.foldl (fun a c => a * 10 + (c.toNat - 48)) 0
    if v < 4294967296 then some v else none
  else none

/-- `Game::new_empty` (lib.rs:104): empty board, White to move, all four
castling rights `true`, everything else zero/empty. -/
def newEmpty : Game :=
  { core := { board := List.replicate 8 (List.replicate 8 none),
              turn := .White,
              kingsideCastle := ⟨true, true⟩,
              queensideCastle := ⟨true, true⟩,
              enPassantSquare := none,
              halfMoves := 0,
              fullMoves := 0,
              captures := [],
              promotionSquare := none },
    whiteAttackedSquares := [],
    blackAttackedSquares := [] }

/-- Split a character list at every separator satisfying `p`, keeping empty
pieces; `acc` holds the reversed current piece.  (Structural replacement for
the string-splitting primitives, which do not reduce in the kernel.) -/
def splitCharsBy (p : Char → Bool) : List Char → List Char → List (List Char)
  | acc, [] => [acc.reverse]
  | acc, c :: rest =>
    if p c then acc.reverse :: splitCharsBy p [] rest
    else splitCharsBy p (c :: acc) rest

/-- `split_whitespace`: split at whitespace, dropping empty tokens. -/
def splitFields (s : String) : List String :=
  ((splitCharsBy Char.isWhitespace [] s.toList).map String.mk).filter (fun t => t ≠ "")

/-- `split("/")` on the placement field: split at every '/', keeping empty
pieces. -/
def splitSlash (s : String) : List String :=
  (splitCharsBy (fun c => c = '/') [] s.toList).map String.mk

/-- `Game::from_fen` (lib.rs:221).  Field accesses `fen_fields[k]` panic
when the field is missing.  Parsing starts from `new_empty` — in
particular the castling fold starts from all-`true` rights. -/
def fromFen (fenStr : String) : FenResult :=
  let fields := splitFields fenStr
  match fields.get? 0 with
  | none => .panic
  | some f0 =>
    match placeRows newEmpty.core.board 0 (splitSlash f0) with
    | .panic => .panic
    | .err e => .err e
    | .ok board =>
      match fields.get? 1 with
      | none => .panic
      | some f1 =>
        match (match f1 with
               | "w" => Except.ok Color.White
               | "b" => Except.ok Color.Black
               | c => Except.error ("Invalid active field " ++ c)) with
        | .error e => .err e
        | .ok turn =>
          match fields.get? 2 with
          | none => .panic
          | some f2 =>
            match castleFold newEmpty.core.kingsideCastle newEmpty.core.queensideCastle f2.toList with
            | .error e => .err e
            | .ok castles =>
              match fields.get? 3 with
              | none => .panic
              | some f3 =>
                match (match f3 with
                       | "-" => AlgRes.ok (0, 0)   -- dummy; ignored on the '-' branch
                       | _ => algNotationToIndx f3) with
                | .panic => .panic
                | .err e => .err e
                | .ok indx =>
                  let epSquare := if f3 = "-" then none else some indx
                  match fields.get? 4 with
                  | none => .panic
                  | some f4 =>
                    match parseU32 f4 with
                    | none => .err "invalid half-move field"
                    | some halfMoves =>
                      match fields.get? 5 with
                      | none => .panic
                      | some f5 =>
                        match parseU32 f5 with
                        | none => .err "invalid full-move field"
                        | some fullMoves =>
                          .ok (updateAttackedSquares
                            { newEmpty with core :=
                              { newEmpty.core with
                                  board := board,
                                  turn := turn,
                                  kingsideCastle := castles.1,
                                  queensideCastle := castles.2,
                                  enPassantSquare := epSquare,
                                  halfMoves := halfMoves,
                                  fullMoves := fullMoves } })

/-- The game parsed from an exchange string (`newEmpty` on the non-`Ok`
branches; used only where `fromFen` is proven/computed to return `Ok`). -/
def fenGame (s : String) : Game :=
  match fromFen s with
  | .ok g => g
  | _ => newEmpty

/-- `Game::new_starting_pos` (lib.rs:169): `from_fen` of the hard-coded
starting string (whose `unwrap` is safe). -/
def newStartingPos : Game :=
  fenGame "rnbqkbnr/pppppppp/8/8/8/8/PPPPPPPP/RNBQKBNR w KQkq - 0 1"

/-- The placement field of `to_fen` for one row (lib.rs:339-359):
run-length encode empty squares, flush the counter before each piece and at
the row's end. -/
def rowToFen (b : Board) (i : Nat) : String :=
  let res := (List.range 8).foldl
    (fun (acc : String × Nat) j =>
      match getSq b i j with
      | some piece =>
        let withEmpties := if acc.2 ≠ 0 then acc.1.push (digitChar acc.2) else acc.1
        (withEmpties.push (getPieceLetter piece), 0)
      | none => (acc.1, acc.2 + 1))
    ("", 0)
  if res.2 ≠ 0 then res.1.push (digitChar res.2) else res.1

/-- The castling field of `to_fen` (lib.rs:373-396). -/
def castleField (c : GameCore) : String :=
  let s := (if c.kingsideCastle.get .White then "K" else "") ++
           (if c.queensideCastle.get .White then "Q" else "") ++
           (if c.kingsideCastle.get .Black then "k" else "") ++
           (if c.queensideCastle.get .Black then "q" else "")
  if s = "" then "-" else s

/-- The '/'-joining of the eight placement rows in `to_fen`
(lib.rs:357: push '/' after every row but the last). -/
def joinSlash : List String → String
  | [] => ""
  | [s] => s
  | s :: rest => s ++ "/" ++ joinSlash rest

/-- `Game::to_fen` (lib.rs:333): assemble the six fields.  `none` models
the panic of the `unwrap` on `indx_to_alg_notation` for an invalid stored
en-passant square (lib.rs:403). -/
def toFen (g : Game) : Option String :=
  let f1 := joinSlash ((List.range 8).map (rowToFen g.core.board))
  let f2 := match g.core.turn with | Color.White => "w" | Color.Black => "b"
  let f3 := castleField g.core
  let f4? := match g.core.enPassantSquare with
    | none => some "-"
    | some square =>
      match indxToAlgNota square with
      | .ok s => some s
      | _ => none
  match f4? with
  | none => none
  | some f4 =>
    some (f1 ++ " " ++ f2 ++ " " ++ f3 ++ " " ++ f4 ++ " " ++
          toString g.core.halfMoves ++ " " ++ toString g.core.fullMoves)

/-- Replace only the two attacked-square caches of a game.  Two states of
the Rust object that differ only in these derived caches have the same
`core`; this function builds one from the other. -/
def setCaches (g : Game) (w b : List (Nat × Nat)) : Game :=
  { g with whiteAttackedSquares := w, blackAttackedSquares := b }

/-- The fields of a `Game` that `undo_last_move` restores: the core minus
the promotion square (erased to `none` on both sides when compared). -/
def stripRestored (g : Game) : GameCore :=
  { g.core with promotionSquare := none }

/-- An actual 8×8 grid (every board produced by `from_fen` is one). -/
def boardWf (b : Board) : Prop :=
  b.length = 8 ∧ ∀ r ∈ b, r.length = 8

instance (b : Board) : Decidable (boardWf b) := by unfold boardWf; infer_instance

/-!
## Lemmas

General facts about the embedding used by the claim theorems below.
-/

theorem listContains_iff {l : List (Nat × Nat)} {x : Nat × Nat} :
    listContains l x = true ↔ x ∈ l := by
  simp only [listContains, List.any_eq_true, decide_eq_true_eq]
  exact ⟨fun ⟨y, hy, e⟩ => e ▸ hy, fun h => ⟨x, h, rfl⟩⟩

theorem listContains_congr {l1 l2 : List (Nat × Nat)} {x : Nat × Nat}
    (h : x ∈ l1 ↔ x ∈ l2) : listContains l1 x = listContains l2 x := by
  cases h1 : listContains l1 x <;> cases h2 : listContains l2 x <;> try rfl
  · have : listContains l1 x = true := listContains_iff.mpr (h.mpr (listContains_iff.mp h2))
    rw [h1] at this
    exact absurd this (by simp)
  · have : listContains l2 x = true := listContains_iff.mpr (h.mp (listContains_iff.mp h1))
    rw [h2] at this
    exact absurd this (by simp)

theorem promoteToPiece_snd_promo (c : GameCore) (t : PieceType) :
    (promoteToPiece c t).2.promotionSquare = none := by
  unfold promoteToPiece
  rcases c.promotionSquare with _ | s <;> rfl

theorem promoteToPiece_of_none (c : GameCore) (t : PieceType) (h : c.promotionSquare = none) :
    promoteToPiece c t = (false, c) := by
  unfold promoteToPiece
  rw [h]
  obtain ⟨b0, t0, ks0, qs0, ep0, hm0, fm0, cp0, pr0⟩ := c
  simp only at h
  subst h
  rfl

/-- After a simulated move (`auto_promote = true`) no promotion is pending:
`promote_to_piece` clears the marker unconditionally. -/
theorem mmU_promo_none (g : Game) (f t : Nat × Nat) :
    (makeMoveUnchecked g f t true).core.promotionSquare = none := by
  show (finishCore (moveCore g.core f t true)).promotionSquare = none
  unfold moveCore
  dsimp only
  exact promoteToPiece_snd_promo _ _

theorem eq_setCaches_of_core_eq {g g0 : Game} (h : g.core = g0.core) :
    g = setCaches g0 g.whiteAttackedSquares g.blackAttackedSquares := by
  cases g; cases g0
  cases h
  rfl

theorem core_promo_eta {c : GameCore} (h : c.promotionSquare = none) :
    ({ c with promotionSquare := none } : GameCore) = c := by
  cases c
  simp only at h
  subst h
  rfl

theorem setCaches_core (g : Game) (w b : List (Nat × Nat)) : (setCaches g w b).core = g.core := rfl

/-- A square pushed by the kingside-castling block is empty on the board:
its emptiness is part of the push condition. -/
theorem mem_kingsideCastleMoves_empty {g : Game} {i j : Nat} {c : Color} {s : Nat × Nat}
    (h : s ∈ kingsideCastleMoves g i j c) : getSq g.core.board s.1 s.2 = none := by
  unfold kingsideCastleMoves at h
  split at h
  · split at h
    · dsimp only at h
      split at h
      · rename_i hempt _
        simp only [Bool.and_eq_true, Option.isNone_iff_eq_none] at hempt
        simp only [List.mem_singleton] at h
        subst h
        exact hempt.2
      · simp at h
    · simp at h
  · simp at h

theorem mem_queensideCastleMoves_empty {g : Game} {i j : Nat} {c : Color} {s : Nat × Nat}
    (h : s ∈ queensideCastleMoves g i j c) : getSq g.core.board s.1 s.2 = none := by
  unfold queensideCastleMoves at h
  split at h
  · split at h
    · dsimp only at h
      split at h
      · rename_i hempt _
        simp only [Bool.and_eq_true, Option.isNone_iff_eq_none] at hempt
        simp only [List.mem_singleton] at h
        subst h
        exact hempt.2
      · simp at h
    · simp at h
  · simp at h

theorem findKing_occupied {b : Board} {c : Color} {s : Nat × Nat}
    (h : findKing b c = some s) :
    ∃ piece, getSq b s.1 s.2 = some piece ∧ piece.pieceType = PieceType.King ∧ piece.color = c := by
  unfold findKing at h
  have hp := List.find?_some h
  rcases hv : getSq b s.1 s.2 with _ | piece
  · rw [hv] at hp; simp at hp
  · rw [hv] at hp
    simp only [Bool.and_eq_true, decide_eq_true_eq] at hp
    exact ⟨piece, rfl, hp.1, hp.2⟩

/-- Attack-mode pseudo-legal moves do not depend on the cached
attacked-square vectors as far as membership of an *occupied* square is
concerned: only the castling blocks read the caches, and they push only
empty squares. -/
theorem pseudoAttack_mem_congr (h : Game) (w b : List (Nat × Nat)) (i j : Nat) (s : Nat × Nat)
    (oa : Bool) (p : Piece) (hocc : getSq h.core.board s.1 s.2 = some p) :
    (s ∈ pseudoMovesForSquare (setCaches h w b) i j oa ↔ s ∈ pseudoMovesForSquare h i j oa) := by
  unfold pseudoMovesForSquare
  simp only [setCaches_core]
  rcases hv : getSq h.core.board i j with _ | piece
  · exact Iff.rfl
  · rcases piece with ⟨pt, pc⟩
    cases pt
    case Pawn => exact Iff.rfl
    case Rook => exact Iff.rfl
    case Bishop => exact Iff.rfl
    case Knight => exact Iff.rfl
    case Queen => exact Iff.rfl
    case King =>
      unfold kingPseudoLegalMoves
      simp only [setCaches_core]
      rw [hv]
      simp only [List.mem_append]
      constructor
      · rintro ((hd | hk) | hq)
        · exact Or.inl (Or.inl hd)
        · exact absurd (mem_kingsideCastleMoves_empty hk) (by simp [setCaches_core, hocc])
        · exact absurd (mem_queensideCastleMoves_empty hq) (by simp [setCaches_core, hocc])
      · rintro ((hd | hk) | hq)
        · exact Or.inl (Or.inl hd)
        · exact absurd (mem_kingsideCastleMoves_empty hk) (by simp [hocc])
        · exact absurd (mem_queensideCastleMoves_empty hq) (by simp [hocc])

theorem attackedFor_mem_congr (h : Game) (w b : List (Nat × Nat)) (col : Color) (s : Nat × Nat)
    (p : Piece) (hocc : getSq h.core.board s.1 s.2 = some p) :
    (s ∈ attackedFor (setCaches h w b) col ↔ s ∈ attackedFor h col) := by
  unfold attackedFor
  simp only [setCaches_core]
  rw [List.mem_flatMap, List.mem_flatMap]
  apply exists_congr
  intro ij
  apply and_congr_right
  intro _
  rcases hv : getSq h.core.board ij.1 ij.2 with _ | piece
  · exact Iff.rfl
  · by_cases hc : piece.color = col
    · simp only [hc, if_true]
      exact pseudoAttack_mem_congr h w b ij.1 ij.2 s true p hocc
    · simp only [hc, if_false]

/-- The check verdict after a simulated move does not depend on the caches
held before the simulation: the post-move king square is occupied, and
occupied-square membership in the freshly computed attack vectors is
cache-independent. -/
theorem inCheck_mmU_setCaches (g : Game) (w b : List (Nat × Nat)) (f t : Nat × Nat) (c : Color) :
    inCheck (makeMoveUnchecked (setCaches g w b) f t true) c =
      inCheck (makeMoveUnchecked g f t true) c := by
  unfold inCheck
  have hb : (makeMoveUnchecked (setCaches g w b) f t true).core.board =
      (makeMoveUnchecked g f t true).core.board := rfl
  rw [hb]
  rcases hk : findKing (makeMoveUnchecked g f t true).core.board c with _ | s
  · rfl
  · obtain ⟨piece, hocc, -, -⟩ := findKing_occupied hk
    have hocc' : getSq (⟨moveCore g.core f t true, g.whiteAttackedSquares,
        g.blackAttackedSquares⟩ : Game).core.board s.1 s.2 = some piece := hocc
    apply listContains_congr
    show s ∈ getAttackedSquares (makeMoveUnchecked (setCaches g w b) f t true) c.opposite ↔
         s ∈ getAttackedSquares (makeMoveUnchecked g f t true) c.opposite
    cases c
    case White =>
      show s ∈ attackedFor (setCaches (⟨moveCore g.core f t true, g.whiteAttackedSquares,
          g.blackAttackedSquares⟩ : Game) w b) Color.Black ↔
        s ∈ attackedFor (⟨moveCore g.core f t true, g.whiteAttackedSquares,
          g.blackAttackedSquares⟩ : Game) Color.Black
      exact attackedFor_mem_congr _ w b _ s piece hocc'
    case Black =>
      show s ∈ attackedFor (setCaches (⟨moveCore g.core f t true, g.whiteAttackedSquares,
          g.blackAttackedSquares⟩ : Game) w b) Color.White ↔
        s ∈ attackedFor (⟨moveCore g.core f t true, g.whiteAttackedSquares,
          g.blackAttackedSquares⟩ : Game) Color.White
      exact attackedFor_mem_congr _ w b _ s piece hocc'

/-- The simulate-and-restore loop computes exactly the filter of the
pseudo-legal list by the not-in-check-after-simulation predicate taken at
the original state: the state threaded through the loop differs from the
original only in the caches (and the promotion marker, `none` throughout
under the hypothesis), which the verdicts do not depend on. -/
theorem legalLoop_mem_filter (c : Color) (pos : Nat × Nat) (m : Nat × Nat) (g0 : Game)
    (h0 : g0.core.promotionSquare = none) :
    ∀ (ps : List (Nat × Nat)) (g : Game), g.core = g0.core →
      (m ∈ (legalLoop c pos ps g).1 ↔
        m ∈ ps ∧ inCheck (makeMoveUnchecked g0 pos m true) c = false) := by
  intro ps
  induction ps with
  | nil =>
    intro g hg
    simp [legalLoop]
  | cons mve rest ih =>
    intro g hg
    have hset : g = setCaches g0 g.whiteAttackedSquares g.blackAttackedSquares :=
      eq_setCaches_of_core_eq hg
    have hkeep : inCheck (makeMoveUnchecked g pos mve true) c =
        inCheck (makeMoveUnchecked g0 pos mve true) c := by
      rw [hset]
      exact inCheck_mmU_setCaches g0 _ _ _ _ _
    have hnextcore : (undoRestore g (makeMoveUnchecked g pos mve true)).core = g0.core := by
      show ({ g.core with promotionSquare :=
        (makeMoveUnchecked g pos mve true).core.promotionSquare } : GameCore) = g0.core
      rw [mmU_promo_none, hg]
      exact core_promo_eta h0
    have ihn := ih (undoRestore g (makeMoveUnchecked g pos mve true)) hnextcore
    show m ∈ (if !(inCheck (makeMoveUnchecked g pos mve true) c) then
        mve :: (legalLoop c pos rest (undoRestore g (makeMoveUnchecked g pos mve true))).1
      else (legalLoop c pos rest (undoRestore g (makeMoveUnchecked g pos mve true))).1) ↔
      m ∈ mve :: rest ∧ inCheck (makeMoveUnchecked g0 pos m true) c = false
    rw [hkeep]
    by_cases hchk : inCheck (makeMoveUnchecked g0 pos mve true) c = false
    · rw [hchk]
      simp only [Bool.not_false, if_true, List.mem_cons, ihn]
      constructor
      · rintro (rfl | ⟨hm, hp⟩)
        · exact ⟨Or.inl rfl, hchk⟩
        · exact ⟨Or.inr hm, hp⟩
      · rintro ⟨rfl | hm, hp⟩
        · exact Or.inl rfl
        · exact Or.inr ⟨hm, hp⟩
    · have hchk' : inCheck (makeMoveUnchecked g0 pos mve true) c = true := by
        cases hv : inCheck (makeMoveUnchecked g0 pos mve true) c
        · exact absurd hv hchk
        · rfl
      rw [hchk']
      simp only [Bool.not_true, Bool.false_eq_true, if_false, ihn, List.mem_cons]
      constructor
      · rintro ⟨hm, hp⟩
        exact ⟨Or.inr hm, hp⟩
      · rintro ⟨rfl | hm, hp⟩
        · rw [hp] at hchk'; cases hchk'
        · exact ⟨hm, hp⟩

/-- The loop restores every field except the caches and the promotion
marker after each simulation. -/
theorem legalLoop_strip (color : Color) (pos : Nat × Nat) :
    ∀ (ps : List (Nat × Nat)) (g : Game),
      stripRestored (legalLoop color pos ps g).2 = stripRestored g := by
  intro ps
  induction ps with
  | nil => intro g; rfl
  | cons mve rest ih =>
    intro g
    show stripRestored (legalLoop color pos rest (undoRestore g _)).2 = _
    rw [ih]
    rfl

theorem getSq_setSq_self {b : Board} (hwf : boardWf b) {i j : Nat} (hi : i ≤ 7) (hj : j ≤ 7)
    (v : Option Piece) : getSq (setSq b i j v) i j = v := by
  obtain ⟨hlen, hrows⟩ := hwf
  unfold setSq getSq
  have hib : i < b.length := by omega
  rcases hr : b.get? i with _ | row
  · rw [List.get?_eq_none] at hr
    omega
  · have hrl : row.length = 8 := hrows row (List.get?_mem hr)
    have h1 : (b.set i (row.set j v)).get? i = some (row.set j v) := by
      rw [List.get?_set_eq]
      rw [hr]
      rfl
    rw [h1]
    dsimp only
    have h2 : (row.set j v).get? j = some v := by
      rw [List.get?_set_eq]
      rw [List.get?_eq_get (by omega : j < row.length)]
      rfl
    rw [h2]
    rfl

theorem getSq_setSq_ne {b : Board} {i j i' j' : Nat} (hne : i ≠ i' ∨ j ≠ j')
    (v : Option Piece) : getSq (setSq b i j v) i' j' = getSq b i' j' := by
  unfold setSq getSq
  rcases hr : b.get? i with _ | row
  · rfl
  · rcases hii : decide (i = i') with _ | _
    · simp only [decide_eq_false_iff_not] at hii
      rw [List.get?_set_ne _ _ hii]
    · simp only [decide_eq_true_eq] at hii
      subst hii
      have hj : j ≠ j' := by tauto
      have hib : i < b.length := List.get?_eq_some.mp hr |>.1
      rw [List.get?_set_eq]
      rw [hr]
      show ((row.set j v).get? j').join = _
      rw [List.get?_set_ne _ _ hj]

theorem boardWf_setSq {b : Board} (hwf : boardWf b) (i j : Nat) (v : Option Piece) :
    boardWf (setSq b i j v) := by
  obtain ⟨hlen, hrows⟩ := hwf
  unfold setSq
  rcases hr : b.get? i with _ | row
  · exact ⟨hlen, hrows⟩
  · constructor
    · rw [List.length_set]; exact hlen
    · intro r hrmem
      rcases List.mem_or_eq_of_mem_set hrmem with hmem | rfl
      · exact hrows r hmem
      · rw [List.length_set]
        exact hrows row (List.get?_mem hr)

/-- A one-step ray walk yields at most the single adjacent square. -/
theorem mem_walkRay_one {b : Board} {col : Color} {dI dJ : Int} {ia : Bool} {i j : Int}
    {m : Nat × Nat} (h : m ∈ walkRay b col dI dJ ia 1 i j) :
    m = ((i + dI).toNat, (j + dJ).toNat) := by
  unfold walkRay at h
  dsimp only at h
  split at h
  · split at h
    · rw [show walkRay b col dI dJ ia 0 (i + dI) (j + dJ) = [] from rfl] at h
      simp only [List.mem_singleton] at h
      exact h
    · split at h
      · split at h <;> simp_all
      · simp_all
  · rw [show walkRay b col dI dJ ia 0 (i + dI) (j + dJ) = [] from rfl] at h
    cases h

/-- The castling destination `(i, 6)` of a king standing on `(i, 4)` is
never produced by its one-step directional moves. -/
theorem king_target_not_mem_directional {b : Board} {i : Nat} {bb : Bool} :
    (i, 6) ∉ directionalPseudoLegalMoves b i 4 queenMoveDirections 1 bb := by
  intro h
  unfold directionalPseudoLegalMoves at h
  rcases hv : getSq b i 4 with _ | piece
  · rw [hv] at h; cases h
  · rw [hv] at h
    rw [List.mem_flatMap] at h
    obtain ⟨d, hd, hw⟩ := h
    have hm := mem_walkRay_one hw
    have h2 : (6 : Nat) = ((4 : Int) + d.2).toNat := congrArg Prod.snd hm
    fin_cases hd <;> simp_all

theorem king_target_not_mem_queenside {g : Game} {i : Nat} {c : Color} :
    (i, 6) ∉ queensideCastleMoves g i 4 c := by
  intro h
  unfold queensideCastleMoves at h
  split at h
  · split at h
    · dsimp only at h
      split at h
      · simp only [List.mem_singleton, Prod.mk.injEq] at h
        omega
      · cases h
    · cases h
  · cases h

theorem mem_kingside_castle_iff {g : Game} {i : Nat} {c : Color} :
    ((i, 6) ∈ kingsideCastleMoves g i 4 c) ↔
      (g.core.kingsideCastle.get c = true ∧
       getSq g.core.board i 5 = none ∧ getSq g.core.board i 6 = none ∧
       listContains (getAttackedSquares g c.opposite) (i, 4) = false ∧
       listContains (getAttackedSquares g c.opposite) (i, 5) = false ∧
       listContains (getAttackedSquares g c.opposite) (i, 6) = false) := by
  unfold kingsideCastleMoves
  constructor
  · intro h
    split at h
    · rename_i h1
      split at h
      · rename_i h2
        dsimp only at h
        split at h
        · rename_i h3
          simp only [Bool.and_eq_true, Option.isNone_iff_eq_none] at h2
          simp only [Bool.and_eq_true, Bool.not_eq_true'] at h3
          refine ⟨h1, ?_, ?_, ?_, ?_, ?_⟩ <;> simp_all
        · cases h
      · cases h
    · cases h
  · rintro ⟨h1, h2, h3, h4, h5, h6⟩
    rw [if_pos h1]
    rw [if_pos (by simp_all : ((getSq g.core.board i (4 + 1)).isNone &&
        (getSq g.core.board i (4 + 2)).isNone) = true)]
    dsimp only
    rw [if_pos (by simp_all : (!listContains (getAttackedSquares g c.opposite) (i, 4) &&
        !listContains (getAttackedSquares g c.opposite) (i, 4 + 1) &&
        !listContains (getAttackedSquares g c.opposite) (i, 4 + 2)) = true)]
    simp

/-- Kingside-castling generation for a king on `(i, 4)`: the two-file move
appears among its pseudo-legal moves exactly under the right/emptiness/
non-attacked conditions. -/
theorem kingPseudo_kingside_iff {g : Game} {i : Nat} {c : Color}
    (hocc : getSq g.core.board i 4 = some (Piece.new PieceType.King c)) :
    ((i, 6) ∈ kingPseudoLegalMoves g i 4 false ↔
      (g.core.kingsideCastle.get c = true ∧
       getSq g.core.board i 5 = none ∧ getSq g.core.board i 6 = none ∧
       listContains (getAttackedSquares g c.opposite) (i, 4) = false ∧
       listContains (getAttackedSquares g c.opposite) (i, 5) = false ∧
       listContains (getAttackedSquares g c.opposite) (i, 6) = false)) := by
  unfold kingPseudoLegalMoves
  rw [hocc]
  dsimp only
  simp only [List.mem_append]
  constructor
  · rintro ((hd | hk) | hq)
    · exact absurd hd king_target_not_mem_directional
    · exact mem_kingside_castle_iff.mp hk
    · exact absurd hq king_target_not_mem_queenside
  · intro hconds
    exact Or.inl (Or.inr (mem_kingside_castle_iff.mpr hconds))

theorem insert_false_get {r : CastlingRights} {cc c' : Color} (h : r.get cc = false) :
    (r.insert c' false).get cc = false := by
  cases r; cases cc <;> cases c' <;> simp_all [CastlingRights.get, CastlingRights.insert]

theorem insert_get_self {r : CastlingRights} {cc : Color} (v : Bool) :
    (r.insert cc v).get cc = v := by
  cases r; cases cc <;> rfl

/-- Application of the kingside-castling move: the king lands two files to
the right, the corner rook moves beside it, the corner is emptied, and both
castling rights of the mover are cleared. -/
theorem kingsideCastle_application {g : Game} {i : Nat} {c : Color}
    (hwf : boardWf g.core.board) (hi : i ≤ 7)
    (hocc : getSq g.core.board i 4 = some (Piece.new PieceType.King c))
    (_he5 : getSq g.core.board i 5 = none)
    (he6 : getSq g.core.board i 6 = none) :
    getSq (makeMoveUnchecked g (i, 4) (i, 6) false).core.board i 4 = none ∧
    getSq (makeMoveUnchecked g (i, 4) (i, 6) false).core.board i 6 =
      some (Piece.new PieceType.King c) ∧
    getSq (makeMoveUnchecked g (i, 4) (i, 6) false).core.board i 5 = getSq g.core.board i 7 ∧
    getSq (makeMoveUnchecked g (i, 4) (i, 6) false).core.board i 7 = none ∧
    (makeMoveUnchecked g (i, 4) (i, 6) false).core.kingsideCastle.get c = false ∧
    (makeMoveUnchecked g (i, 4) (i, 6) false).core.queensideCastle.get c = false := by
  have hM : moveCore g.core (i, 4) (i, 6) false =
      { g.core with
          halfMoves := g.core.halfMoves + 1,
          kingsideCastle := g.core.kingsideCastle.insert c false,
          queensideCastle := g.core.queensideCastle.insert c false,
          board := setSq (setSq (setSq (setSq g.core.board i 5 (getSq g.core.board i 7)) i 7 none)
            i 6 (getSq (setSq (setSq g.core.board i 5 (getSq g.core.board i 7)) i 7 none) i 4))
            i 4 none } := by
    unfold moveCore
    dsimp only
    rw [show captureStep { g.core with halfMoves := g.core.halfMoves + 1 } (i, 6) =
        { g.core with halfMoves := g.core.halfMoves + 1 } from by
      unfold captureStep; dsimp only; rw [he6]]
    rw [show pieceSpecificEffects { g.core with halfMoves := g.core.halfMoves + 1 } (i, 4) (i, 6) =
        kingCastleEffect { g.core with halfMoves := g.core.halfMoves + 1 } (i, 4) (i, 6) c from by
      unfold pieceSpecificEffects; dsimp only; rw [hocc]; rfl]
    rw [show kingCastleEffect { g.core with halfMoves := g.core.halfMoves + 1 } (i, 4) (i, 6) c =
        { g.core with
            halfMoves := g.core.halfMoves + 1,
            kingsideCastle := g.core.kingsideCastle.insert c false,
            queensideCastle := g.core.queensideCastle.insert c false,
            board := setSq (setSq g.core.board i 5 (getSq g.core.board i 7)) i 7 none } from by
      unfold kingCastleEffect
      dsimp only
      rw [if_pos (by decide : (((4 : Nat) : Int) - ((6 : Nat) : Int)).natAbs = 2)]
      rw [if_pos (by decide : (((4 : Nat) : Int) - ((6 : Nat) : Int)) < 0)]]
    rw [show capturedRookRightsEffect
        { g.core with
            halfMoves := g.core.halfMoves + 1,
            kingsideCastle := g.core.kingsideCastle.insert c false,
            queensideCastle := g.core.queensideCastle.insert c false,
            board := setSq (setSq g.core.board i 5 (getSq g.core.board i 7)) i 7 none } (i, 6) =
        { g.core with
            halfMoves := g.core.halfMoves + 1,
            kingsideCastle := g.core.kingsideCastle.insert c false,
            queensideCastle := g.core.queensideCastle.insert c false,
            board := setSq (setSq g.core.board i 5 (getSq g.core.board i 7)) i 7 none } from by
      unfold capturedRookRightsEffect
      dsimp only
      rw [getSq_setSq_ne (Or.inr (by omega)), getSq_setSq_ne (Or.inr (by omega)), he6]]
    unfold relocateStep
    dsimp only
    rw [getSq_setSq_ne (Or.inr (by omega : (7 : Nat) ≠ 4)),
        getSq_setSq_ne (Or.inr (by omega : (5 : Nat) ≠ 4)), hocc]
    rw [if_neg (by decide : ¬((false : Bool) = true))]
  have hwf1 : boardWf (setSq g.core.board i 5 (getSq g.core.board i 7)) := boardWf_setSq hwf _ _ _
  have hwf2 : boardWf (setSq (setSq g.core.board i 5 (getSq g.core.board i 7)) i 7 none) :=
    boardWf_setSq hwf1 _ _ _
  have hwf3 : boardWf (setSq (setSq (setSq g.core.board i 5 (getSq g.core.board i 7)) i 7 none)
      i 6 (getSq (setSq (setSq g.core.board i 5 (getSq g.core.board i 7)) i 7 none) i 4)) :=
    boardWf_setSq hwf2 _ _ _
  have hb : (makeMoveUnchecked g (i, 4) (i, 6) false).core.board =
      (moveCore g.core (i, 4) (i, 6) false).board := rfl
  have hks : (makeMoveUnchecked g (i, 4) (i, 6) false).core.kingsideCastle =
      (moveCore g.core (i, 4) (i, 6) false).kingsideCastle := rfl
  have hqs : (makeMoveUnchecked g (i, 4) (i, 6) false).core.queensideCastle =
      (moveCore g.core (i, 4) (i, 6) false).queensideCastle := rfl
  refine ⟨?_, ?_, ?_, ?_, ?_, ?_⟩
  · rw [hb, hM]
    exact getSq_setSq_self hwf3 hi (by omega) _
  · rw [hb, hM]
    dsimp only
    rw [getSq_setSq_ne (Or.inr (by omega : (4 : Nat) ≠ 6))]
    rw [getSq_setSq_self hwf2 hi (by omega)]
    rw [getSq_setSq_ne (Or.inr (by omega : (7 : Nat) ≠ 4)),
        getSq_setSq_ne (Or.inr (by omega : (5 : Nat) ≠ 4)), hocc]
  · rw [hb, hM]
    dsimp only
    rw [getSq_setSq_ne (Or.inr (by omega : (4 : Nat) ≠ 5))]
    rw [getSq_setSq_ne (Or.inr (by omega : (6 : Nat) ≠ 5))]
    rw [getSq_setSq_ne (Or.inr (by omega : (7 : Nat) ≠ 5))]
    exact getSq_setSq_self hwf hi (by omega) _
  · rw [hb, hM]
    dsimp only
    rw [getSq_setSq_ne (Or.inr (by omega : (4 : Nat) ≠ 7))]
    rw [getSq_setSq_ne (Or.inr (by omega : (6 : Nat) ≠ 7))]
    exact getSq_setSq_self hwf1 hi (by omega) _
  · rw [hks, hM]
    exact insert_get_self false
  · rw [hqs, hM]
    exact insert_get_self false

theorem captureStep_castles (c : GameCore) (t : Nat × Nat) :
    (captureStep c t).kingsideCastle = c.kingsideCastle ∧
    (captureStep c t).queensideCastle = c.queensideCastle := by
  unfold captureStep; split <;> exact ⟨rfl, rfl⟩

theorem kingCastleEffect_castles_false {c : GameCore} {cc : Color} (f t : Nat × Nat) (kc : Color)
    (hk : c.kingsideCastle.get cc = false) (hq : c.queensideCastle.get cc = false) :
    (kingCastleEffect c f t kc).kingsideCastle.get cc = false ∧
    (kingCastleEffect c f t kc).queensideCastle.get cc = false := by
  unfold kingCastleEffect
  dsimp only
  split
  · split <;> exact ⟨insert_false_get hk, insert_false_get hq⟩
  · exact ⟨hk, hq⟩

theorem rookMoveRightsEffect_castles_false {c : GameCore} {cc : Color} (f : Nat × Nat) (rc : Color)
    (hk : c.kingsideCastle.get cc = false) (hq : c.queensideCastle.get cc = false) :
    (rookMoveRightsEffect c f rc).kingsideCastle.get cc = false ∧
    (rookMoveRightsEffect c f rc).queensideCastle.get cc = false := by
  unfold rookMoveRightsEffect
  dsimp only
  split
  · split
    · exact ⟨hk, insert_false_get hq⟩
    · exact ⟨insert_false_get hk, hq⟩
    · exact ⟨hk, hq⟩
  · exact ⟨hk, hq⟩

theorem pawnEffects_castles (c : GameCore) (f t : Nat × Nat) (pc : Color) :
    (pawnEffects c f t pc).kingsideCastle = c.kingsideCastle ∧
    (pawnEffects c f t pc).queensideCastle = c.queensideCastle := by
  unfold pawnEffects
  dsimp only
  repeat' split <;> try exact ⟨rfl, rfl⟩

theorem capturedRookRightsEffect_castles_false {c : GameCore} {cc : Color} (t : Nat × Nat)
    (hk : c.kingsideCastle.get cc = false) (hq : c.queensideCastle.get cc = false) :
    (capturedRookRightsEffect c t).kingsideCastle.get cc = false ∧
    (capturedRookRightsEffect c t).queensideCastle.get cc = false := by
  unfold capturedRookRightsEffect
  dsimp only
  split
  · split
    · split
      · split
        · exact ⟨hk, insert_false_get hq⟩
        · exact ⟨insert_false_get hk, hq⟩
        · exact ⟨hk, hq⟩
      · exact ⟨hk, hq⟩
    · exact ⟨hk, hq⟩
  · exact ⟨hk, hq⟩

theorem promoteToPiece_castles (c : GameCore) (pt : PieceType) :
    (promoteToPiece c pt).2.kingsideCastle = c.kingsideCastle ∧
    (promoteToPiece c pt).2.queensideCastle = c.queensideCastle := by
  unfold promoteToPiece promote
  rcases c.promotionSquare with _ | idx
  · exact ⟨rfl, rfl⟩
  · dsimp only
    rcases getSq c.board idx.1 idx.2 with _ | piece <;> exact ⟨rfl, rfl⟩

/-- No step of move application ever sets a cleared castling right back to
`true`. -/
theorem moveCore_castles_false {c : GameCore} {cc : Color} (f t : Nat × Nat) (ap : Bool)
    (hk : c.kingsideCastle.get cc = false) (hq : c.queensideCastle.get cc = false) :
    (moveCore c f t ap).kingsideCastle.get cc = false ∧
    (moveCore c f t ap).queensideCastle.get cc = false := by
  unfold moveCore
  dsimp only
  have h1 := captureStep_castles { c with halfMoves := c.halfMoves + 1 } t
  have hk1 : (captureStep { c with halfMoves := c.halfMoves + 1 } t).kingsideCastle.get cc = false := by
    rw [h1.1]; exact hk
  have hq1 : (captureStep { c with halfMoves := c.halfMoves + 1 } t).queensideCastle.get cc = false := by
    rw [h1.2]; exact hq
  have h2 : (pieceSpecificEffects (captureStep { c with halfMoves := c.halfMoves + 1 } t) f t).kingsideCastle.get cc = false ∧
      (pieceSpecificEffects (captureStep { c with halfMoves := c.halfMoves + 1 } t) f t).queensideCastle.get cc = false := by
    unfold pieceSpecificEffects
    split
    · split
      · exact kingCastleEffect_castles_false _ _ _ hk1 hq1
      · split
        · exact rookMoveRightsEffect_castles_false _ _ hk1 hq1
        · split
          · exact ⟨by rw [(pawnEffects_castles _ _ _ _).1]; exact hk1,
                   by rw [(pawnEffects_castles _ _ _ _).2]; exact hq1⟩
          · exact ⟨hk1, hq1⟩
    · exact ⟨hk1, hq1⟩
  have h3 := capturedRookRightsEffect_castles_false t h2.1 h2.2
  have h4k : (relocateStep (capturedRookRightsEffect (pieceSpecificEffects
      (captureStep { c with halfMoves := c.halfMoves + 1 } t) f t) t) f t).kingsideCastle.get cc = false := h3.1
  have h4q : (relocateStep (capturedRookRightsEffect (pieceSpecificEffects
      (captureStep { c with halfMoves := c.halfMoves + 1 } t) f t) t) f t).queensideCastle.get cc = false := h3.2
  split
  · exact ⟨by rw [(promoteToPiece_castles _ _).1]; exact h4k,
           by rw [(promoteToPiece_castles _ _).2]; exact h4q⟩
  · exact ⟨h4k, h4q⟩

theorem mmU_castles_false {g : Game} {cc : Color} (f t : Nat × Nat) (ap : Bool)
    (hk : g.core.kingsideCastle.get cc = false) (hq : g.core.queensideCastle.get cc = false) :
    (makeMoveUnchecked g f t ap).core.kingsideCastle.get cc = false ∧
    (makeMoveUnchecked g f t ap).core.queensideCastle.get cc = false :=
  moveCore_castles_false f t ap hk hq

/-- C1: a move is included in the legal-move list for an occupied valid square
(with no promotion pending) iff it is pseudo-legal and simulating it leaves the
moving piece's own king unattacked; the filter's outcome does not depend on the
cached attacked-square sets of the queried position. -/
theorem c1_legal_move_iff_king_safe (g : Game) (i j : Nat) (p : Piece) (m : Nat × Nat)
    (hpromo : g.core.promotionSquare = none)
    (hi : i ≤ 7) (hj : j ≤ 7)
    (hocc : getSq g.core.board i j = some p) :
    (m ∈ legalMovesOf g (i, j) ↔
      m ∈ pseudoMovesForSquare g i j false ∧
        inCheck (makeMoveUnchecked g (i, j) m true) p.color = false) := by
  have hv : isValidPos (i : Int) (j : Int) = true := by
    simp only [isValidPos, Bool.and_eq_true, decide_eq_true_eq]
    omega
  unfold legalMovesOf getLegalMovesArrayIndex
  rw [hv]
  simp only [Bool.not_true]
  rw [hocc]
  dsimp only
  exact legalLoop_mem_filter p.color (i, j) m g hpromo _ g rfl

/-- C1 witness: the starting position, pawn on e2, move e2-e4. -/
theorem c1_legal_move_iff_king_safe_witness :
    (newStartingPos.core.promotionSquare = none ∧ 6 ≤ 7 ∧ 4 ≤ 7 ∧
      getSq newStartingPos.core.board 6 4 = some (Piece.new PieceType.Pawn Color.White)) ∧
    ((4, 4) ∈ legalMovesOf newStartingPos (6, 4) ↔
      (4, 4) ∈ pseudoMovesForSquare newStartingPos 6 4 false ∧
        inCheck (makeMoveUnchecked newStartingPos (6, 4) (4, 4) true)
          (Piece.new PieceType.Pawn Color.White).color = false) :=
  ⟨⟨rfl, by decide, by decide, rfl⟩,
    c1_legal_move_iff_king_safe newStartingPos 6 4 (Piece.new PieceType.Pawn Color.White)
      (4, 4) rfl (by decide) (by decide) rfl⟩

/-- C2: in the position k7/1rP5/K1B5/8/8/8/8/8 b - - 0 1, Black is to move, is
not in check, and has zero legal moves, so the priority list of the claim
requires Draw(Stalemate); get_state instead returns Win(Checkmate(White))
because its check test reads the attacked-square caches left stale by the last
legality simulation. -/
theorem c2_stale_cache_misclassifies_stalemate_as_win :
    inCheck (fenGame "k7/1rP5/K1B5/8/8/8/8/8 b - - 0 1") Color.Black = false ∧
    allLegalCount (fenGame "k7/1rP5/K1B5/8/8/8/8/8 b - - 0 1") Color.Black = 0 ∧
    (fenGame "k7/1rP5/K1B5/8/8/8/8/8 b - - 0 1").core.turn = Color.Black ∧
    getState (fenGame "k7/1rP5/K1B5/8/8/8/8/8 b - - 0 1") =
      GameState.Win (WinState.Checkmate Color.White) :=
  ⟨by rfl, by rfl, by rfl, by rfl⟩

/-- C3: a completed pawn double-push e2-e4 from the starting position is
accepted, yet the en-passant target it just set is already cleared when the
move returns — the final clearing step runs unconditionally, so the target
never survives into the following move. -/
theorem c3_en_passant_cleared_by_own_double_push :
    mmAccepted newStartingPos (6, 4) (4, 4) true true = true ∧
    (mmGame newStartingPos (6, 4) (4, 4) true true).core.enPassantSquare = none :=
  ⟨by rfl, by rfl⟩

/-- C4: the canonical string 4k3/8/8/8/8/8/8/4K2R w K - 0 1 (emitted by the
serializer itself for a position with only White kingside castling) is accepted
by the parser, but re-serializing yields the castling field KQkq, so the
round trip fails: parsing only ever turns rights on over the all-true
defaults. -/
theorem c4_castling_subset_fen_fails_round_trip :
    toFen { fenGame "4k3/8/8/8/8/8/8/4K2R w KQkq - 0 1" with core :=
            { (fenGame "4k3/8/8/8/8/8/8/4K2R w KQkq - 0 1").core with
                kingsideCastle := ⟨true, false⟩, queensideCastle := ⟨false, false⟩ } } =
      some "4k3/8/8/8/8/8/8/4K2R w K - 0 1" ∧
    (fromFen "4k3/8/8/8/8/8/8/4K2R w K - 0 1").isOk = true ∧
    toFen (fenGame "4k3/8/8/8/8/8/8/4K2R w K - 0 1") =
      some "4k3/8/8/8/8/8/8/4K2R w KQkq - 0 1" ∧
    ("4k3/8/8/8/8/8/8/4K2R w KQkq - 0 1" : String) ≠ "4k3/8/8/8/8/8/8/4K2R w K - 0 1" :=
  ⟨by rfl, by rfl, by rfl, by decide⟩

/-- C5 counterexample: the legality query is not observably side-effect free —
it overwrites the white attacked-square cache of the starting position, and a
query issued while a promotion is pending silently clears the pending-promotion
square. -/
theorem c5_counterexample :
    (legalStateOf newStartingPos (6, 4)).whiteAttackedSquares ≠
      newStartingPos.whiteAttackedSquares ∧
    (mmGame (fenGame "8/1P6/8/8/8/8/1p6/8 w - - 0 1") (1, 1) (0, 1) true false).core.promotionSquare
      = some (0, 1) ∧
    (legalStateOf (mmGame (fenGame "8/1P6/8/8/8/8/1p6/8 w - - 0 1") (1, 1) (0, 1) true false)
        (6, 1)).core.promotionSquare = none :=
  ⟨by decide, by rfl, by rfl⟩

/-- C5 (amended): after get_legal_moves_array_index returns, the board, side to
move, castling rights, en-passant target, clocks and capture log are restored
to their pre-call values; the attacked-square caches and the pending-promotion
square are NOT restored. -/
theorem c5_restored_except_caches_and_promotion (g : Game) (index : Nat × Nat) :
    stripRestored (legalStateOf g index) = stripRestored g := by
  unfold legalStateOf
  rcases hres : getLegalMovesArrayIndex g index with e | r
  · rfl
  · unfold getLegalMovesArrayIndex at hres
    split at hres
    · cases hres
    · split at hres
      · cases hres
        rfl
      · cases hres
        exact legalLoop_strip _ _ _ _

/-- C6: for a king on (i,4), the kingside-castling move (i,6) is generated iff
the side's kingside right is set, the squares (i,5) and (i,6) are empty, and
the start, transit and destination squares are unattacked by the opponent;
applying the two-file king move relocates king and rook in one application and
clears both of that side's castling rights, and no later move application ever
sets a cleared right back. -/
theorem c6_kingside_castling (g : Game) (i : Nat) (c : Color)
    (hwf : boardWf g.core.board) (hi : i ≤ 7)
    (hocc : getSq g.core.board i 4 = some (Piece.new PieceType.King c)) :
    ((i, 6) ∈ kingPseudoLegalMoves g i 4 false ↔
      (g.core.kingsideCastle.get c = true ∧
       getSq g.core.board i 5 = none ∧ getSq g.core.board i 6 = none ∧
       listContains (getAttackedSquares g c.opposite) (i, 4) = false ∧
       listContains (getAttackedSquares g c.opposite) (i, 5) = false ∧
       listContains (getAttackedSquares g c.opposite) (i, 6) = false)) ∧
    (getSq g.core.board i 5 = none → getSq g.core.board i 6 = none →
      (getSq (makeMoveUnchecked g (i, 4) (i, 6) false).core.board i 4 = none ∧
       getSq (makeMoveUnchecked g (i, 4) (i, 6) false).core.board i 6 =
         some (Piece.new PieceType.King c) ∧
       getSq (makeMoveUnchecked g (i, 4) (i, 6) false).core.board i 5 =
         getSq g.core.board i 7 ∧
       getSq (makeMoveUnchecked g (i, 4) (i, 6) false).core.board i 7 = none ∧
       (makeMoveUnchecked g (i, 4) (i, 6) false).core.kingsideCastle.get c = false ∧
       (makeMoveUnchecked g (i, 4) (i, 6) false).core.queensideCastle.get c = false)) ∧
    (∀ (f t : Nat × Nat) (ap : Bool),
      g.core.kingsideCastle.get c = false → g.core.queensideCastle.get c = false →
      (makeMoveUnchecked g f t ap).core.kingsideCastle.get c = false ∧
      (makeMoveUnchecked g f t ap).core.queensideCastle.get c = false) := by
  refine ⟨kingPseudo_kingside_iff hocc, ?_, ?_⟩
  · intro h5 h6
    exact kingsideCastle_application hwf hi hocc h5 h6
  · intro f t ap hk hq
    exact mmU_castles_false f t ap hk hq

/-- C6 witness: White king e1, rook h1, kingside castling applied. -/
theorem c6_kingside_castling_witness :
    (boardWf (fenGame "4k3/8/8/8/8/8/8/4K2R w K - 0 1").core.board ∧ 7 ≤ 7 ∧
      getSq (fenGame "4k3/8/8/8/8/8/8/4K2R w K - 0 1").core.board 7 4 =
        some (Piece.new PieceType.King Color.White)) ∧
    getSq (makeMoveUnchecked (fenGame "4k3/8/8/8/8/8/8/4K2R w K - 0 1")
        (7, 4) (7, 6) false).core.board 7 6 =
      some (Piece.new PieceType.King Color.White) ∧
    (makeMoveUnchecked (fenGame "4k3/8/8/8/8/8/8/4K2R w K - 0 1")
        (7, 4) (7, 6) false).core.kingsideCastle.get Color.White = false :=
  ⟨⟨by decide, by decide, by rfl⟩,
    (((c6_kingside_castling (fenGame "4k3/8/8/8/8/8/8/4K2R w K - 0 1") 7 Color.White
        (by decide) (by decide) (by rfl)).2.1 (by rfl) (by rfl)).2.1),
    (((c6_kingside_castling (fenGame "4k3/8/8/8/8/8/8/4K2R w K - 0 1") 7 Color.White
        (by decide) (by decide) (by rfl)).2.1 (by rfl) (by rfl)).2.2.2.2.1)⟩

/-- C7: error handling diverges from the claim — the square string a0 is
accepted as the off-board index (8,0) instead of an error, a9 drives an
unsigned subtraction below zero (a fatal condition), and an exchange string
with the placement field only (five fields missing) makes the parser index
past the end of the field list (a fatal condition); other malformed inputs are
reported as Err as claimed. -/
theorem c7_error_reporting_divergences :
    algNotationToIndx "a0" = AlgRes.ok (8, 0) ∧
    algNotationToIndx "a9" = AlgRes.panic ∧
    fromFen "rnbqkbnr/pppppppp/8/8/8/8/PPPPPPPP/RNBQKBNR" = FenResult.panic ∧
    (fromFen "rnbqkbnr/pppppppp/8/8/8/8/PPPPPPPP/RNBQKBNR x KQkq - 0 1").isErr = true ∧
    (algNotationToIndx "z5").isErr = true ∧
    (algNotationToIndx "e99").isErr = true ∧
    (algNotationToIndx "").isErr = true :=
  ⟨by rfl, by rfl, by rfl, by rfl, by rfl, by rfl, by rfl⟩

/-- C8 counterexample: with the promotion square (0,1) pending, a new move by
the other side is still accepted by move application, so the position is not
frozen for new moves. -/
theorem c8_not_frozen_counterexample :
    (mmGame (fenGame "8/1P6/8/8/8/8/1p6/8 w - - 0 1") (1, 1) (0, 1) true false).core.promotionSquare
      = some (0, 1) ∧
    mmAccepted (mmGame (fenGame "8/1P6/8/8/8/8/1p6/8 w - - 0 1") (1, 1) (0, 1) true false)
      (6, 1) (7, 1) true false = true :=
  ⟨by rfl, by rfl⟩

/-- C8 (amended): while the promotion square is set get_state reports
AwaitPromotion (but move application still accepts new moves);
promote_to_piece replaces the pawn on the pending square by the chosen kind of
the same color with no restriction on the kind and clears the pending square;
with no pending square it returns false and changes nothing, so a promotion
event resolves at most once. -/
theorem c8_promotion_behaviour :
    (∀ (g : Game) (s : Nat × Nat), g.core.promotionSquare = some s →
      getState g = GameState.AwaitPromotion) ∧
    (∀ (c : GameCore) (idx : Nat × Nat) (t : PieceType) (p : Piece),
      c.promotionSquare = some idx → getSq c.board idx.1 idx.2 = some p →
      promoteToPiece c t =
        (true, { c with board := setSq c.board idx.1 idx.2 (some (Piece.new t p.color)),
                        promotionSquare := none })) ∧
    (∀ (c : GameCore) (t : PieceType), c.promotionSquare = none →
      promoteToPiece c t = (false, c)) ∧
    (∀ (c : GameCore) (t t' : PieceType),
      promoteToPiece (promoteToPiece c t).2 t' = (false, (promoteToPiece c t).2)) := by
  refine ⟨?_, ?_, ?_, ?_⟩
  · intro g s h
    unfold getState
    rw [h]
    rfl
  · intro c idx t p h1 h2
    unfold promoteToPiece promote
    rw [h1]
    dsimp only
    rw [h2]
  · exact promoteToPiece_of_none
  · intro c t t'
    exact promoteToPiece_of_none _ _ (promoteToPiece_snd_promo c t)

/-- C8 witness: pending promotion at (0,1) makes get_state report
AwaitPromotion. -/
theorem c8_promotion_behaviour_witness :
    ((mmGame (fenGame "8/1P6/8/8/8/8/1p6/8 w - - 0 1") (1, 1) (0, 1) true false).core.promotionSquare
        = some (0, 1)) ∧
    getState (mmGame (fenGame "8/1P6/8/8/8/8/1p6/8 w - - 0 1") (1, 1) (0, 1) true false) =
      GameState.AwaitPromotion :=
  ⟨by rfl, c8_promotion_behaviour.1 _ (0, 1) (by rfl)⟩

/-- C9 counterexample: in the starting position Black is not the side to move,
yet the all-legal-moves query returns a nonzero count for Black — the query
never consults the side to move. -/
theorem c9_counterexample : allLegalCount newStartingPos Color.Black ≠ 0 := by
  decide

/-- C9 (amended): in the starting position the all-legal-moves query returns
exactly 20 moves for whichever color is asked — 20 for White and also 20 for
Black, because get_all_legal_moves ignores whose turn it is. -/
theorem c9_twenty_legal_moves_each_color :
    allLegalCount newStartingPos Color.White = 20 ∧
    allLegalCount newStartingPos Color.Black = 20 :=
  ⟨by rfl, by rfl⟩

/-- C10: if no square of the board holds a king of color c, in_check(c)
returns false — the king search yields no square and the membership test on
the attacked set is vacuously false. -/
theorem c10_in_check_false_without_king (g : Game) (c : Color)
    (h : ∀ ij ∈ squaresIdx, ∀ piece, getSq g.core.board ij.1 ij.2 = some piece →
      ¬(piece.pieceType = PieceType.King ∧ piece.color = c)) :
    inCheck g c = false := by
  unfold inCheck
  have hq : findKing g.core.board c = none := by
    unfold findKing
    apply List.find?_eq_none.mpr
    intro ij hij
    rcases hv : getSq g.core.board ij.1 ij.2 with _ | piece
    · simp [hv]
    · have := h ij hij piece hv
      simp [hv]
      intro hk hc
      exact this ⟨hk, hc⟩
  simp [hq]

/-- C10 witness: the empty board built from a kingless exchange string. -/
theorem c10_in_check_false_without_king_witness :
    (∀ ij ∈ squaresIdx, ∀ piece,
        getSq (fenGame "8/8/8/8/8/8/8/8 w - - 0 1").core.board ij.1 ij.2 = some piece →
        ¬(piece.pieceType = PieceType.King ∧ piece.color = Color.White)) ∧
    inCheck (fenGame "8/8/8/8/8/8/8/8 w - - 0 1") Color.White = false :=
  ⟨by decide, c10_in_check_false_without_king _ _ (by decide)⟩
